import Mathlib

/-!
# Verification of `generate_assets.py` (AidanFromm/card-ledger)

A shallow embedding of the batch asset-generation script.  The script
iterates a hardcoded list of (filename, aspect_ratio, prompt) records;
for each it calls the `replicate.run` generation service, downloads the
returned image with `urllib.request.urlretrieve` into
`<ASSETS>/<filename>`, reads the written file's size back, and prints a
per-item outcome line; between items (but not after the last) it prints
a pacing notice and sleeps 65 seconds.  After the loop a summary pass
re-iterates the same list, printing each file's presence/size, and ends
with `DONE`.

The external world is modelled by an oracle: per item, the combined
outcome of the service call, the download, the size read-back and the
success print (all of which sit inside the item-level `try`).  The
filesystem is an association list from file path to file size in bytes
(`urlretrieve` overwrites an existing file of the same name).  Stdout
and `time.sleep` are modelled as an event trace.  A second layer
(`ItemPlan` / `genLoop`) additionally lets the two statements of the
loop body that are *outside* the `try` — the progress print (line 30)
and the pacing print/sleep (lines 45–46) — raise, which the script does
not catch, aborting the run.
-/

set_option autoImplicit false

/-- One record of the hardcoded `images` list (src/generate_assets.py
lines 11–27): destination base name, aspect ratio and prompt. -/
structure AssetRequest where
  filename : String
  aspect_ratio : String
  prompt : String
deriving Repr, DecidableEq

/-- The hardcoded output directory (line 8). -/
def ASSETS : String := "C:/Users/useva/.openclaw/workspace/projects/card-ledger/public/assets"

/-- `os.path.join(ASSETS, filename)` (lines 37 and 52), with `/` as the
separator. -/
def joinPath (dir name : String) : String := dir ++ "/" ++ name

/-- The hardcoded asset list (lines 11–27), transcribed verbatim. -/
def images : List AssetRequest := [
  ⟨"hero-bg.png", "16:9", "Futuristic dark scene with holographic Pokemon trading cards floating in 3D space, glass panels with glowing blue data visualizations, deep navy and purple gradient background, volumetric lighting rays, bokeh particles, cinematic composition, ultra high quality"⟩,
  ⟨"feature-track.png", "1:1", "Glass display case with holographic trading cards arranged in a grid, each card glowing with iridescent rainbow edges, dark background with blue ambient light, museum-quality presentation, ultra realistic, professional product photography"⟩,
  ⟨"feature-price.png", "1:1", "Futuristic holographic price dashboard floating in dark space, glowing blue and purple charts and numbers, glass panels with market data, trading card silhouettes in background, cinematic lighting, high tech financial interface aesthetic"⟩,
  ⟨"feature-scan.png", "1:1", "Smartphone scanning a holographic Pokemon card with AR augmented reality overlay, blue scanning laser lines, card data floating in glass panels around the phone, dark background, futuristic tech aesthetic, professional"⟩,
  ⟨"feature-profit.png", "1:1", "Holographic portfolio analytics dashboard floating in dark space, glowing green profit chart trending upward, glass panels with card thumbnails, blue and purple ambient light, futuristic financial visualization, cinematic"⟩,
  ⟨"empty-inventory.png", "1:1", "Single holographic trading card floating in dark void, soft blue glow emanating from the card, minimalist, particles of light, ethereal and calm, centered composition, clean negative space"⟩,
  ⟨"empty-search.png", "1:1", "Glass magnifying lens floating in dark space, blue light refracting through the lens, scattered light particles, minimalist futuristic aesthetic, clean and elegant"⟩,
  ⟨"empty-sales.png", "1:1", "Holographic receipt transforming into a glowing chart, blue and green light, glass effect, dark background, futuristic financial transformation concept, minimalist"⟩,
  ⟨"onboard-welcome.png", "9:16", "Single holographic Pokemon card bursting with prismatic light rays, dark background, epic and dramatic, card emerging from darkness into brilliant blue and purple light, cinematic vertical composition"⟩,
  ⟨"onboard-scan.png", "9:16", "Hands holding smartphone scanning a trading card, AR overlay with blue holographic data, card identification interface, dark background, futuristic mobile technology, vertical composition"⟩,
  ⟨"onboard-track.png", "9:16", "Beautiful glass dashboard showing trading card collection grid, holographic cards organized in rows, portfolio value displayed prominently, dark background with blue glow, vertical composition"⟩,
  ⟨"onboard-price.png", "9:16", "Futuristic price ticker display with holographic numbers and charts, trading cards with price tags floating, market data visualization, blue and green accents on dark background, vertical composition"⟩,
  ⟨"onboard-profit.png", "9:16", "Portfolio growth visualization, glowing green upward trending line chart, holographic coins and trading cards, celebration energy, dark background with blue and green light, vertical composition"⟩,
  ⟨"og-share.png", "16:9", "Premium dark banner with holographic trading cards fanned out, glass panel overlay, blue and purple gradient, professional and sleek, wide cinematic composition, card collection showcase"⟩,
  ⟨"empty-watchlist.png", "1:1", "Futuristic eye icon with blue radar pulse rings emanating outward, dark background, holographic glass effect, surveillance and monitoring aesthetic, minimalist and clean"⟩]

/-- The filesystem under the output directory: file path ↦ size in
bytes.  A write to an existing path replaces its entry (`urlretrieve`
overwrites in place); a write to a fresh path adds an entry. -/
abbrev FS := List (String × Nat)

/-- Look a path up in the filesystem (`os.path.exists` /
`os.path.getsize`). -/
def getFile : FS → String → Option Nat
  | [], _ => none
  | (n, b) :: rest, name => if n = name then some b else getFile rest name

/-- Write `bytes` to `name`, overwriting any existing file of that
name (`urlretrieve` at line 38). -/
def setFile : FS → String → Nat → FS
  | [], name, bytes => [(name, bytes)]
  | (n, b) :: rest, name, bytes =>
    if n = name then (name, bytes) :: rest else (n, b) :: setFile rest name bytes

/-- The file names present on disk. -/
def fsKeys (fs : FS) : List String := fs.map (fun e => e.1)

/-- The input record passed to `replicate.run` (lines 32–35): the model
identifier plus the `input` dictionary's four fields. -/
structure ServiceRequest where
  model : String
  prompt : String
  aspect_ratio : String
  output_format : String
  safety_tolerance : Nat
deriving Repr, DecidableEq

/-- The `replicate.run` call made for one asset record: model
`black-forest-labs/flux-1.1-pro`, the record's prompt and aspect ratio,
`output_format = "png"`, `safety_tolerance = 5` (lines 32–35). -/
def mkServiceRequest (req : AssetRequest) : ServiceRequest :=
  ⟨"black-forest-labs/flux-1.1-pro", req.prompt, req.aspect_ratio, "png", 5⟩

/-- Observable events of one run: stdout lines and sleeps, in order. -/
inductive Event where
  /-- `[i/n] Generating {filename} ({aspect})...` (line 30). -/
  | progress (i n : Nat) (filename aspect : String)
  /-- an invocation of `replicate.run` (line 32). -/
  | serviceCall (r : ServiceRequest)
  /-- `OK Saved: {filename} ({kb} KB)` (line 40); `kb = size // 1024`. -/
  | okSaved (filename : String) (kb : Nat)
  /-- `FAIL: {filename} - {e}` (line 42). -/
  | fail (filename msg : String)
  /-- `Waiting 65s...` (line 45). -/
  | waiting
  /-- `time.sleep(secs)` (line 46). -/
  | sleep (secs : Nat)
  /-- the `=`-rule / `SUMMARY` / `=`-rule header block (lines 48–50). -/
  | summaryHeader
  /-- `OK {filename}: {kb} KB` (line 55). -/
  | summaryOk (filename : String) (kb : Nat)
  /-- `MISSING {filename}` (line 57). -/
  | summaryMissing (filename : String)
  /-- `DONE` (line 58). -/
  | done
deriving Repr, DecidableEq

/-- Combined outcome, chosen by the environment, of the four statements
inside the item-level `try` (lines 32–40): the service call, the
download, the size read-back, and the success print. -/
inductive ItemOutcome where
  /-- `replicate.run` raises (line 32): nothing was written. -/
  | genFail (msg : String)
  /-- `urlretrieve` raises (line 38): `leftover = some b` when the
  failure happened mid-download leaving a truncated `b`-byte file,
  `none` when nothing was written. -/
  | downloadFail (msg : String) (leftover : Option Nat)
  /-- `os.path.getsize` raises (line 39) after the download wrote a
  `bytes`-byte file. -/
  | readbackFail (msg : String) (bytes : Nat)
  /-- the success print raises (line 40) after a `bytes`-byte file was
  written. -/
  | okPrintFail (msg : String) (bytes : Nat)
  /-- everything succeeds; the downloaded file is `bytes` bytes. -/
  | ok (bytes : Nat)
deriving Repr, DecidableEq

/-- The error message of a failing outcome, `none` on success. -/
def failMsg : ItemOutcome → Option String
  | .genFail msg => some msg
  | .downloadFail msg _ => some msg
  | .readbackFail msg _ => some msg
  | .okPrintFail msg _ => some msg
  | .ok _ => none

/-- The file content (if any) the outcome leaves at the item's path. -/
def writes : ItemOutcome → Option Nat
  | .genFail _ => none
  | .downloadFail _ leftover => leftover
  | .readbackFail _ bytes => some bytes
  | .okPrintFail _ bytes => some bytes
  | .ok bytes => some bytes

/-- The `try`/`except` body for one item (lines 31–42): on success, the
file is written and the `OK Saved` line printed with the size in KiB
(`size // 1024`); on any failure, the `except` clause prints the `FAIL`
line with the filename and the error, no cleanup of a partial file is
attempted, and control falls through.  The `replicate.run` invocation
happens first in every case. -/
def processItem (out : ItemOutcome) (fs : FS) (req : AssetRequest) : FS × List Event :=
  let call := Event.serviceCall (mkServiceRequest req)
  let path := joinPath ASSETS req.filename
  match out with
  | .genFail msg => (fs, [call, .fail req.filename msg])
  | .downloadFail msg none => (fs, [call, .fail req.filename msg])
  | .downloadFail msg (some b) => (setFile fs path b, [call, .fail req.filename msg])
  | .readbackFail msg b => (setFile fs path b, [call, .fail req.filename msg])
  | .okPrintFail msg b => (setFile fs path b, [call, .fail req.filename msg])
  | .ok b => (setFile fs path b, [call, .okSaved req.filename (b / 1024)])

/-- One iteration of the loop (lines 29–46) under normal execution of
the two uncaught statements: the progress print, the `try`/`except`
body, then — when `i < n - 1` — the pacing print and the 65-second
sleep. -/
def itemStep (out : ItemOutcome) (n i : Nat) (fs : FS) (req : AssetRequest) :
    FS × List Event :=
  let pe := Event.progress (i + 1) n req.filename req.aspect_ratio
  let (fs', evs) := processItem out fs req
  if i < n - 1 then (fs', pe :: evs ++ [Event.waiting, Event.sleep 65])
  else (fs', pe :: evs)

/-- The generation loop (lines 29–46) under normal execution, driven by
an oracle giving each index's `ItemOutcome`; `i` is the 0-based index of
the first remaining item and `n = len(images)`. -/
def genLoopOk (oracle : Nat → ItemOutcome) (n : Nat) :
    Nat → FS → List AssetRequest → FS × List Event
  | _, fs, [] => (fs, [])
  | i, fs, req :: rest =>
    let (fs', evs) := itemStep (oracle i) n i fs req
    let (fs'', t) := genLoopOk oracle n (i + 1) fs' rest
    (fs'', evs ++ t)

/-- One line of the summary pass (lines 52–57): `OK` with the size in
KiB when `<ASSETS>/<filename>` exists, `MISSING` otherwise. -/
def summaryLine (fs : FS) (req : AssetRequest) : Event :=
  match getFile fs (joinPath ASSETS req.filename) with
  | some b => Event.summaryOk req.filename (b / 1024)
  | none => Event.summaryMissing req.filename

/-- The summary pass (lines 48–58): header, one line per record of the
list in order, then `DONE`.  It only reads the filesystem. -/
def summaryPass (fs : FS) (reqs : List AssetRequest) : List Event :=
  Event.summaryHeader :: reqs.map (summaryLine fs) ++ [Event.done]

/-- The whole script body after directory creation, under normal
execution: the generation loop over `reqs` then the summary pass over
the same list. -/
def runBatchOk (oracle : Nat → ItemOutcome) (fs0 : FS) (reqs : List AssetRequest) :
    FS × List Event :=
  let (fs, t) := genLoopOk oracle reqs.length 0 fs0 reqs
  (fs, t ++ summaryPass fs reqs)

/-- The `replicate.run` invocations recorded in a trace, in order. -/
def serviceCalls (t : List Event) : List ServiceRequest :=
  t.filterMap (fun e => match e with | .serviceCall r => some r | _ => none)

/-- How many `time.sleep` calls a trace contains. -/
def sleepCount (t : List Event) : Nat :=
  t.countP (fun e => match e with | .sleep _ => true | _ => false)

/-- How many progress lines a trace contains. -/
def progressCount (t : List Event) : Nat :=
  t.countP (fun e => match e with | .progress _ _ _ _ => true | _ => false)

/-- Environment choice for one full loop iteration.  Besides the `try`
body's outcome, the two statements of the iteration that sit *outside*
the `try` may themselves raise: the progress print at line 30
(`progressRaises`) and the pacing print/sleep at lines 45–46
(`sleepRaises`).  The script has no handler around either, so such an
exception propagates and kills the run. -/
structure ItemPlan where
  progressRaises : Bool
  outcome : ItemOutcome
  sleepRaises : Bool
deriving Repr, DecidableEq

/-- Result of running the script body: `completed` when control reached
the end, `aborted` when an uncaught exception propagated; both carry
the final filesystem and the trace emitted up to that point. -/
inductive RunResult where
  | completed (fs : FS) (trace : List Event)
  | aborted (fs : FS) (trace : List Event)
deriving Repr, DecidableEq

/-- The final filesystem of a run. -/
def RunResult.fs : RunResult → FS
  | .completed fs _ => fs
  | .aborted fs _ => fs

/-- The trace of a run. -/
def RunResult.trace : RunResult → List Event
  | .completed _ t => t
  | .aborted _ t => t

/-- Did the run reach the end without an uncaught exception? -/
def RunResult.isCompleted : RunResult → Bool
  | .completed _ _ => true
  | .aborted _ _ => false

/-- Prepend already-emitted events to a run's trace. -/
def RunResult.prepend (evs : List Event) : RunResult → RunResult
  | .completed fs t => .completed fs (evs ++ t)
  | .aborted fs t => .aborted fs (evs ++ t)

/-- The generation loop (lines 29–46) with the uncaught statements
allowed to fail.  If the progress print raises, the run aborts before
anything of the item happened; the `try` body (lines 31–42) always
recovers; if the pacing print/sleep raises — it only executes when
`i < n - 1` — the run aborts after the item's outcome, the pacing
notice having been the last output. -/
def genLoop (plan : Nat → ItemPlan) (n : Nat) :
    Nat → FS → List AssetRequest → RunResult
  | _, fs, [] => .completed fs []
  | i, fs, req :: rest =>
    if (plan i).progressRaises then .aborted fs []
    else
      let pe := Event.progress (i + 1) n req.filename req.aspect_ratio
      let (fs', evs) := processItem (plan i).outcome fs req
      if i < n - 1 then
        if (plan i).sleepRaises then .aborted fs' (pe :: evs ++ [Event.waiting])
        else (genLoop plan n (i + 1) fs' rest).prepend
          (pe :: evs ++ [Event.waiting, Event.sleep 65])
      else (genLoop plan n (i + 1) fs' rest).prepend (pe :: evs)

/-- The script body after directory creation (lines 29–58): the
generation loop, then — only if it completed — the summary pass over
the same list.  An uncaught exception in the loop prevents the summary
from ever printing. -/
def runBatch (plan : Nat → ItemPlan) (fs0 : FS) (reqs : List AssetRequest) : RunResult :=
  match genLoop plan reqs.length 0 fs0 reqs with
  | .completed fs t => .completed fs (t ++ summaryPass fs reqs)
  | .aborted fs t => .aborted fs t

/-- Normal execution: the uncaught prints and the sleep never raise;
only the `try` body's outcome varies. -/
def plainPlan (oracle : Nat → ItemOutcome) : Nat → ItemPlan :=
  fun i => ⟨false, oracle i, false⟩

/-- Like `plainPlan`, but item `k`'s progress print (line 30) raises. -/
def progressFaultPlan (oracle : Nat → ItemOutcome) (k : Nat) : Nat → ItemPlan :=
  fun i => ⟨i == k, oracle i, false⟩

/-- Like `plainPlan`, but item `k`'s pacing print/sleep (lines 45–46)
raises. -/
def sleepFaultPlan (oracle : Nat → ItemOutcome) (k : Nat) : Nat → ItemPlan :=
  fun i => ⟨false, oracle i, i == k⟩

/-- An always-succeeding environment whose item `i` downloads a
`bytes i`-byte file. -/
def allOk (bytes : Nat → Nat) : Nat → ItemOutcome := fun i => .ok (bytes i)

/-- Modelled from the spec: the behavior of the Python standard-library
call `os.makedirs(ASSETS, exist_ok=True)` (src/generate_assets.py line
9) is library code outside this repository, so its contract is taken
from the spec — "ensure the configured output directory exists,
creating all missing intermediate directories. Idempotent: no error if
it already exists"; a permission or path error propagates.  A directory
path is its list of components; the directory state is the list of
existing directories.  `permError` is the environment's choice of a
permission/path failure.
All nonempty initial segments of a path are the output directory and
every intermediate directory leading to it. -/
def initSegs (path : List String) : List (List String) :=
  (List.range path.length).map (fun k => path.take (k + 1))

/-- Modelled from the spec: see `initSegs` — create the directory and
every missing intermediate, in root-to-leaf order, erroring only on the
environment's permission/path failure. -/
def makedirs (permError : Bool) (dirs : List (List String)) (path : List String) :
    Except String (List (List String)) :=
  if permError then .error "PermissionError"
  else .ok ((initSegs path).foldl (fun d p => if p ∈ d then d else d ++ [p]) dirs)

/-- `ASSETS` split into path components. -/
def assetsPath : List String :=
  ["C:", "Users", "useva", ".openclaw", "workspace", "projects", "card-ledger", "public", "assets"]

/-- The whole script (lines 8–58): directory preparation, then — only
if it succeeded — the batch.  A `makedirs` failure is outside any
handler and aborts the run before a single item is processed. -/
def runProgram (permError : Bool) (dirs : List (List String)) (plan : Nat → ItemPlan)
    (fs0 : FS) : Except String (List (List String) × RunResult) :=
  match makedirs permError dirs assetsPath with
  | .error e => .error e
  | .ok dirs' => .ok (dirs', runBatch plan fs0 images)

/-- The outcome line the item body prints: `OK Saved` on success,
`FAIL` otherwise. -/
def outLine (out : ItemOutcome) (req : AssetRequest) : Event :=
  match out with
  | .genFail msg => .fail req.filename msg
  | .downloadFail msg _ => .fail req.filename msg
  | .readbackFail msg _ => .fail req.filename msg
  | .okPrintFail msg _ => .fail req.filename msg
  | .ok b => .okSaved req.filename (b / 1024)

/-- Classification of the events the generation loop can emit. -/
def Event.inLoop : Event → Bool
  | .summaryHeader => false
  | .summaryOk _ _ => false
  | .summaryMissing _ => false
  | .done => false
  | _ => true

/-- An environment in which the service call fails for item `k` only
and every other item fully succeeds. -/
def failOnly (k : Nat) (msg : String) (bytes : Nat → Nat) : Nat → ItemOutcome :=
  fun i => if i = k then .genFail msg else .ok (bytes i)

/-! ## Filesystem lemmas -/

theorem getFile_setFile (fs : FS) (n : String) (b : Nat) (name : String) :
    getFile (setFile fs n b) name = if n = name then some b else getFile fs name := by
  induction fs with
  | nil => simp [setFile, getFile]
  | cons e rest ih =>
    obtain ⟨k, v⟩ := e
    by_cases hk : k = n
    · subst hk
      by_cases hn : k = name <;> simp [setFile, getFile, hn]
    · by_cases hn : k = name
      · subst hn
        have hn2 : ¬n = k := fun h => hk h.symm
        simp [setFile, getFile, hk, hn2]
      · simp [setFile, getFile, hk, hn, ih]

theorem fsKeys_setFile (fs : FS) (n : String) (b : Nat) :
    fsKeys (setFile fs n b) =
      if n ∈ fsKeys fs then fsKeys fs else fsKeys fs ++ [n] := by
  induction fs with
  | nil => simp [setFile, fsKeys]
  | cons e rest ih =>
    obtain ⟨k, v⟩ := e
    by_cases hk : k = n
    · subst hk
      simp [setFile, fsKeys]
    · have hnk : ¬(n = k) := fun h => hk h.symm
      simp only [fsKeys, List.map_cons] at ih ⊢
      rw [setFile, if_neg hk]
      simp only [List.map_cons, ih, List.mem_cons]
      by_cases hm : n ∈ List.map (fun e => e.1) rest <;> simp [hm, hnk]

theorem fsKeys_setFile_nodup (fs : FS) (n : String) (b : Nat)
    (h : (fsKeys fs).Nodup) : (fsKeys (setFile fs n b)).Nodup := by
  rw [fsKeys_setFile]
  by_cases hm : n ∈ fsKeys fs
  · simpa [hm]
  · simp [hm, List.nodup_append, h]

theorem getFile_isSome_iff_mem (fs : FS) (name : String) :
    (getFile fs name).isSome = true ↔ name ∈ fsKeys fs := by
  induction fs with
  | nil => simp [getFile, fsKeys]
  | cons e rest ih =>
    obtain ⟨k, v⟩ := e
    by_cases hk : k = name
    · subst hk; simp [getFile, fsKeys]
    · have : ¬(name = k) := fun h => hk h.symm
      simp [getFile, fsKeys, hk, this, ih]

/-! ## Per-item lemmas -/

theorem processItem_eq (out : ItemOutcome) (fs : FS) (req : AssetRequest) :
    processItem out fs req =
      ((match writes out with
        | some b => setFile fs (joinPath ASSETS req.filename) b
        | none => fs),
       [Event.serviceCall (mkServiceRequest req), outLine out req]) := by
  cases out with
  | genFail msg => rfl
  | downloadFail msg l => cases l <;> rfl
  | readbackFail msg b => rfl
  | okPrintFail msg b => rfl
  | ok b => rfl

theorem getFile_processItem (out : ItemOutcome) (fs : FS) (req : AssetRequest)
    (name : String) :
    getFile (processItem out fs req).1 name =
      if joinPath ASSETS req.filename = name then
        match writes out with
        | some b => some b
        | none => getFile fs name
      else getFile fs name := by
  rw [processItem_eq]
  cases h : writes out with
  | none => simp
  | some b => simp [getFile_setFile]

theorem processItem_fail_mem (out : ItemOutcome) (fs : FS) (req : AssetRequest)
    (msg : String) (h : failMsg out = some msg) :
    Event.fail req.filename msg ∈ (processItem out fs req).2 := by
  rw [processItem_eq]
  cases out <;> simp_all [failMsg, outLine]

/-! ## Trace-observation lemmas -/

theorem serviceCalls_append (a b : List Event) :
    serviceCalls (a ++ b) = serviceCalls a ++ serviceCalls b := by
  simp [serviceCalls]

theorem sleepCount_append (a b : List Event) :
    sleepCount (a ++ b) = sleepCount a + sleepCount b := by
  simp [sleepCount, List.countP_append]

theorem progressCount_append (a b : List Event) :
    progressCount (a ++ b) = progressCount a + progressCount b := by
  simp [progressCount, List.countP_append]

theorem serviceCalls_cons (e : Event) (t : List Event) :
    serviceCalls (e :: t) =
      (match e with | .serviceCall r => [r] | _ => []) ++ serviceCalls t := by
  cases e <;> simp [serviceCalls]

theorem serviceCalls_processItem (out : ItemOutcome) (fs : FS) (req : AssetRequest) :
    serviceCalls (processItem out fs req).2 = [mkServiceRequest req] := by
  rw [processItem_eq]
  cases out <;> simp [serviceCalls, outLine]

theorem sleepCount_processItem (out : ItemOutcome) (fs : FS) (req : AssetRequest) :
    sleepCount (processItem out fs req).2 = 0 := by
  rw [processItem_eq]
  cases out <;> simp [sleepCount, outLine]

/-! ## One-iteration lemmas -/

theorem itemStep_fs (out : ItemOutcome) (n i : Nat) (fs : FS) (req : AssetRequest) :
    (itemStep out n i fs req).1 = (processItem out fs req).1 := by
  by_cases h : i < n - 1 <;> simp [itemStep, h]

theorem itemStep_trace (out : ItemOutcome) (n i : Nat) (fs : FS) (req : AssetRequest) :
    (itemStep out n i fs req).2 =
      Event.progress (i + 1) n req.filename req.aspect_ratio ::
        (processItem out fs req).2 ++
        (if i < n - 1 then [Event.waiting, Event.sleep 65] else []) := by
  by_cases h : i < n - 1 <;> simp [itemStep, h]

theorem serviceCalls_itemStep (out : ItemOutcome) (n i : Nat) (fs : FS)
    (req : AssetRequest) :
    serviceCalls (itemStep out n i fs req).2 = [mkServiceRequest req] := by
  rw [itemStep_trace]
  have hp := serviceCalls_processItem out fs req
  by_cases h : i < n - 1 <;>
    simp_all [serviceCalls, List.filterMap_append]

theorem sleepCount_itemStep (out : ItemOutcome) (n i : Nat) (fs : FS)
    (req : AssetRequest) :
    sleepCount (itemStep out n i fs req).2 = if i < n - 1 then 1 else 0 := by
  have hp := sleepCount_processItem out fs req
  unfold sleepCount at hp ⊢
  rw [itemStep_trace]
  by_cases h : i < n - 1
  · rw [if_pos h, if_pos h]
    simp [List.countP_cons, List.countP_append, hp]
  · rw [if_neg h, if_neg h]
    simp [List.countP_cons, List.countP_append, hp]

theorem sleep_mem_itemStep (out : ItemOutcome) (n i : Nat) (fs : FS)
    (req : AssetRequest) :
    Event.sleep 65 ∈ (itemStep out n i fs req).2 ↔ i < n - 1 := by
  rw [itemStep_trace, processItem_eq]
  by_cases h : i < n - 1 <;> cases out <;> simp [h, outLine]

/-! ## Generation-loop lemmas (normal execution) -/

theorem genLoopOk_nil (ω : Nat → ItemOutcome) (n i : Nat) (fs : FS) :
    genLoopOk ω n i fs [] = (fs, []) := rfl

theorem genLoopOk_cons (ω : Nat → ItemOutcome) (n i : Nat) (fs : FS)
    (req : AssetRequest) (rest : List AssetRequest) :
    genLoopOk ω n i fs (req :: rest) =
      ((genLoopOk ω n (i + 1) (itemStep (ω i) n i fs req).1 rest).1,
       (itemStep (ω i) n i fs req).2 ++
         (genLoopOk ω n (i + 1) (itemStep (ω i) n i fs req).1 rest).2) := rfl

theorem serviceCalls_genLoopOk (ω : Nat → ItemOutcome) (n : Nat) :
    ∀ (reqs : List AssetRequest) (i : Nat) (fs : FS),
      serviceCalls (genLoopOk ω n i fs reqs).2 = reqs.map mkServiceRequest := by
  intro reqs
  induction reqs with
  | nil => intro i fs; simp [genLoopOk_nil, serviceCalls]
  | cons req rest ih =>
    intro i fs
    rw [genLoopOk_cons]
    dsimp only
    rw [serviceCalls_append, serviceCalls_itemStep, ih]
    simp

theorem sleepCount_genLoopOk (ω : Nat → ItemOutcome) (n : Nat) :
    ∀ (reqs : List AssetRequest) (i : Nat) (fs : FS), i + reqs.length = n →
      sleepCount (genLoopOk ω n i fs reqs).2 = n - 1 - i := by
  intro reqs
  induction reqs with
  | nil =>
    intro i fs h
    simp only [List.length_nil] at h
    simp only [genLoopOk_nil, sleepCount, List.countP_nil]
    omega
  | cons req rest ih =>
    intro i fs h
    have h' : i + rest.length + 1 = n := by
      simpa [Nat.add_comm, Nat.add_assoc] using h
    rw [genLoopOk_cons]
    dsimp only
    rw [sleepCount_append, sleepCount_itemStep, ih (i + 1) _ (by omega)]
    by_cases hc : i < n - 1
    · rw [if_pos hc]; omega
    · rw [if_neg hc]; omega

theorem getFile_genLoopOk_untouched (ω : Nat → ItemOutcome) (n : Nat) (name : String) :
    ∀ (reqs : List AssetRequest) (i : Nat) (fs : FS),
      (∀ r ∈ reqs, joinPath ASSETS r.filename ≠ name) →
      getFile (genLoopOk ω n i fs reqs).1 name = getFile fs name := by
  intro reqs
  induction reqs with
  | nil => intro i fs _; rfl
  | cons req rest ih =>
    intro i fs h
    rw [genLoopOk_cons]
    dsimp only
    rw [ih (i + 1) _ (fun r hr => h r (List.mem_cons_of_mem _ hr))]
    rw [itemStep_fs, getFile_processItem,
      if_neg (h req (List.mem_cons_self _ _))]

theorem getFile_genLoopOk_isSome (ω : Nat → ItemOutcome) (n : Nat) (name : String) :
    ∀ (reqs : List AssetRequest) (i : Nat) (fs : FS),
      (getFile fs name).isSome = true →
      (getFile (genLoopOk ω n i fs reqs).1 name).isSome = true := by
  intro reqs
  induction reqs with
  | nil => intro i fs h; exact h
  | cons req rest ih =>
    intro i fs h
    rw [genLoopOk_cons]
    dsimp only
    apply ih
    rw [itemStep_fs, getFile_processItem]
    by_cases hp : joinPath ASSETS req.filename = name
    · rw [if_pos hp]
      cases hw : writes (ω i) <;> simp_all
    · rwa [if_neg hp]

theorem getFile_processItem_isSome (out : ItemOutcome) (fs : FS)
    (req : AssetRequest) (name : String) (h : (getFile fs name).isSome = true) :
    (getFile (processItem out fs req).1 name).isSome = true := by
  rw [getFile_processItem]
  by_cases hp : joinPath ASSETS req.filename = name
  · rw [if_pos hp]
    cases hw : writes out <;> simp_all
  · rwa [if_neg hp]

theorem getFile_genLoopOk_final (ω : Nat → ItemOutcome) (n : Nat) :
    ∀ (reqs : List AssetRequest),
      (reqs.map (fun r => joinPath ASSETS r.filename)).Nodup →
      ∀ (i : Nat) (fs : FS) (j : Nat) (hj : j < reqs.length),
        getFile (genLoopOk ω n i fs reqs).1
            (joinPath ASSETS (reqs.get ⟨j, hj⟩).filename) =
          match writes (ω (i + j)) with
          | some b => some b
          | none => getFile fs (joinPath ASSETS (reqs.get ⟨j, hj⟩).filename) := by
  intro reqs
  induction reqs with
  | nil => intro _ i fs j hj; exact absurd hj (Nat.not_lt_zero j)
  | cons req rest ih =>
    intro hnd i fs j hj
    rw [List.map_cons, List.nodup_cons] at hnd
    obtain ⟨hhead, hrest⟩ := hnd
    rw [genLoopOk_cons]
    dsimp only
    cases j with
    | zero =>
      show getFile _ (joinPath ASSETS req.filename) = _
      rw [getFile_genLoopOk_untouched ω n _ rest (i + 1) _
        (fun r hr he => hhead (by rw [← he]; exact List.mem_map_of_mem _ hr))]
      rw [itemStep_fs, getFile_processItem, if_pos rfl]
      rfl
    | succ j' =>
      have hj' : j' < rest.length := by simpa using hj
      show getFile _ (joinPath ASSETS (rest.get ⟨j', hj'⟩).filename) = _
      have hne : joinPath ASSETS req.filename ≠
          joinPath ASSETS (rest.get ⟨j', hj'⟩).filename := by
        intro he
        apply hhead
        rw [he]
        exact List.mem_map_of_mem _ (rest.get_mem _ _)
      rw [ih hrest (i + 1) _ j' hj']
      rw [itemStep_fs, getFile_processItem, if_neg hne]
      have hidx : i + 1 + j' = i + (j' + 1) := by omega
      rw [hidx]
      rfl

theorem fsKeys_genLoopOk_nodup (ω : Nat → ItemOutcome) (n : Nat) :
    ∀ (reqs : List AssetRequest) (i : Nat) (fs : FS),
      (fsKeys fs).Nodup → (fsKeys (genLoopOk ω n i fs reqs).1).Nodup := by
  intro reqs
  induction reqs with
  | nil => intro i fs h; exact h
  | cons req rest ih =>
    intro i fs h
    rw [genLoopOk_cons]
    dsimp only
    apply ih
    rw [itemStep_fs, processItem_eq]
    dsimp only
    cases hw : writes (ω i)
    · exact h
    · exact fsKeys_setFile_nodup _ _ _ h

theorem fail_mem_genLoopOk (ω : Nat → ItemOutcome) (n : Nat) :
    ∀ (reqs : List AssetRequest) (i : Nat) (fs : FS) (j : Nat)
      (hj : j < reqs.length) (msg : String),
      failMsg (ω (i + j)) = some msg →
      Event.fail ((reqs.get ⟨j, hj⟩).filename) msg ∈ (genLoopOk ω n i fs reqs).2 := by
  intro reqs
  induction reqs with
  | nil => intro i fs j hj; exact absurd hj (Nat.not_lt_zero j)
  | cons req rest ih =>
    intro i fs j hj msg hf
    rw [genLoopOk_cons]
    dsimp only
    rw [List.mem_append]
    cases j with
    | zero =>
      left
      rw [itemStep_trace]
      show Event.fail req.filename msg ∈ _
      rw [List.cons_append] at *
      refine List.mem_cons_of_mem _ (List.mem_append_left _ ?_)
      exact processItem_fail_mem _ _ _ _ (by simpa using hf)
    | succ j' =>
      right
      have hj' : j' < rest.length := by simpa using hj
      show Event.fail ((rest.get ⟨j', hj'⟩).filename) msg ∈ _
      have hidx : i + 1 + j' = i + (j' + 1) := by omega
      exact ih (i + 1) _ j' hj' msg (by rwa [hidx])

theorem inLoop_processItem (out : ItemOutcome) (fs : FS) (req : AssetRequest) :
    ∀ e ∈ (processItem out fs req).2, e.inLoop = true := by
  rw [processItem_eq]
  cases out <;> intro e he <;> simp at he <;>
    rcases he with rfl | rfl <;> simp [outLine, Event.inLoop]

theorem inLoop_itemStep (out : ItemOutcome) (n i : Nat) (fs : FS)
    (req : AssetRequest) :
    ∀ e ∈ (itemStep out n i fs req).2, e.inLoop = true := by
  rw [itemStep_trace]
  intro e he
  rw [List.cons_append, List.mem_cons, List.mem_append] at he
  rcases he with rfl | he | he
  · rfl
  · exact inLoop_processItem out fs req e he
  · by_cases h : i < n - 1
    · rw [if_pos h] at he
      simp at he
      rcases he with rfl | rfl <;> rfl
    · rw [if_neg h] at he
      exact absurd he (List.not_mem_nil e)

theorem inLoop_genLoopOk (ω : Nat → ItemOutcome) (n : Nat) :
    ∀ (reqs : List AssetRequest) (i : Nat) (fs : FS),
      ∀ e ∈ (genLoopOk ω n i fs reqs).2, e.inLoop = true := by
  intro reqs
  induction reqs with
  | nil => intro i fs e he; exact absurd he (List.not_mem_nil e)
  | cons req rest ih =>
    intro i fs e he
    rw [genLoopOk_cons] at he
    dsimp only at he
    rw [List.mem_append] at he
    rcases he with he | he
    · exact inLoop_itemStep _ n i fs req e he
    · exact ih (i + 1) _ e he

/-! ## Summary-pass lemmas -/

theorem summaryLine_ok (fs : FS) (req : AssetRequest) (b : Nat)
    (h : getFile fs (joinPath ASSETS req.filename) = some b) :
    summaryLine fs req = Event.summaryOk req.filename (b / 1024) := by
  unfold summaryLine
  rw [h]

theorem summaryLine_missing (fs : FS) (req : AssetRequest)
    (h : getFile fs (joinPath ASSETS req.filename) = none) :
    summaryLine fs req = Event.summaryMissing req.filename := by
  unfold summaryLine
  rw [h]

theorem serviceCalls_summaryPass (fs : FS) (reqs : List AssetRequest) :
    serviceCalls (summaryPass fs reqs) = [] := by
  unfold serviceCalls
  rw [List.filterMap_eq_nil_iff]
  intro e he
  unfold summaryPass at he
  rw [List.cons_append, List.mem_cons, List.mem_append] at he
  rcases he with rfl | he | he
  · rfl
  · obtain ⟨r, _, rfl⟩ := List.mem_map.mp he
    unfold summaryLine
    cases getFile fs (joinPath ASSETS r.filename) <;> rfl
  · simp at he
    subst he
    rfl

theorem sleepCount_summaryPass (fs : FS) (reqs : List AssetRequest) :
    sleepCount (summaryPass fs reqs) = 0 := by
  unfold sleepCount
  rw [List.countP_eq_zero]
  intro e he
  unfold summaryPass at he
  rw [List.cons_append, List.mem_cons, List.mem_append] at he
  rcases he with rfl | he | he
  · simp
  · obtain ⟨r, _, rfl⟩ := List.mem_map.mp he
    unfold summaryLine
    cases getFile fs (joinPath ASSETS r.filename) <;> simp
  · simp at he
    subst he
    simp

theorem progressCount_summaryPass (fs : FS) (reqs : List AssetRequest) :
    progressCount (summaryPass fs reqs) = 0 := by
  unfold progressCount
  rw [List.countP_eq_zero]
  intro e he
  unfold summaryPass at he
  rw [List.cons_append, List.mem_cons, List.mem_append] at he
  rcases he with rfl | he | he
  · simp
  · obtain ⟨r, _, rfl⟩ := List.mem_map.mp he
    unfold summaryLine
    cases getFile fs (joinPath ASSETS r.filename) <;> simp
  · simp at he
    subst he
    simp

theorem summaryMissing_not_mem (fs : FS) (reqs : List AssetRequest)
    (h : ∀ r ∈ reqs, (getFile fs (joinPath ASSETS r.filename)).isSome = true)
    (name : String) :
    Event.summaryMissing name ∉ summaryPass fs reqs := by
  intro hm
  unfold summaryPass at hm
  rw [List.cons_append, List.mem_cons, List.mem_append] at hm
  rcases hm with heq | hm | hm
  · exact Event.noConfusion heq
  · obtain ⟨r, hr, he⟩ := List.mem_map.mp hm
    have hs := h r hr
    unfold summaryLine at he
    cases hg : getFile fs (joinPath ASSETS r.filename) with
    | none => rw [hg] at hs; simp at hs
    | some b => rw [hg] at he; exact Event.noConfusion he
  · simp at hm

theorem summaryOk_mem (fs : FS) (reqs : List AssetRequest) (r : AssetRequest)
    (hr : r ∈ reqs) (b : Nat)
    (h : getFile fs (joinPath ASSETS r.filename) = some b) :
    Event.summaryOk r.filename (b / 1024) ∈ summaryPass fs reqs := by
  unfold summaryPass
  rw [List.cons_append]
  refine List.mem_cons_of_mem _ (List.mem_append_left _ ?_)
  exact List.mem_map.mpr ⟨r, hr, summaryLine_ok fs r b h⟩

/-! ## Agreement of the faulted and the normal loop semantics -/

theorem prepend_fs (evs : List Event) (r : RunResult) :
    (r.prepend evs).fs = r.fs := by
  cases r <;> rfl

theorem prepend_trace (evs : List Event) (r : RunResult) :
    (r.prepend evs).trace = evs ++ r.trace := by
  cases r <;> rfl

theorem prepend_isCompleted (evs : List Event) (r : RunResult) :
    (r.prepend evs).isCompleted = r.isCompleted := by
  cases r <;> rfl

theorem genLoop_plainPlan (ω : Nat → ItemOutcome) (n : Nat) :
    ∀ (reqs : List AssetRequest) (i : Nat) (fs : FS),
      genLoop (plainPlan ω) n i fs reqs =
        .completed (genLoopOk ω n i fs reqs).1 (genLoopOk ω n i fs reqs).2 := by
  intro reqs
  induction reqs with
  | nil => intro i fs; rfl
  | cons req rest ih =>
    intro i fs
    rw [genLoopOk_cons]
    dsimp only
    show genLoop (plainPlan ω) n i fs (req :: rest) = _
    rw [genLoop]
    simp only [plainPlan, Bool.false_eq_true, if_false]
    rw [itemStep_trace, itemStep_fs]
    by_cases h : i < n - 1
    · rw [if_pos h, if_pos h, ih (i + 1) _]
      simp [RunResult.prepend]
    · rw [if_neg h, if_neg h, ih (i + 1) _]
      simp [RunResult.prepend]

theorem runBatch_plainPlan (ω : Nat → ItemOutcome) (fs0 : FS)
    (reqs : List AssetRequest) :
    runBatch (plainPlan ω) fs0 reqs =
      .completed (genLoopOk ω reqs.length 0 fs0 reqs).1
        ((genLoopOk ω reqs.length 0 fs0 reqs).2 ++
          summaryPass (genLoopOk ω reqs.length 0 fs0 reqs).1 reqs) := by
  unfold runBatch
  rw [genLoop_plainPlan]

theorem runBatch_plainPlan_isCompleted (ω : Nat → ItemOutcome) (fs0 : FS)
    (reqs : List AssetRequest) :
    (runBatch (plainPlan ω) fs0 reqs).isCompleted = true := by
  rw [runBatch_plainPlan]
  rfl

theorem runBatch_plainPlan_fs (ω : Nat → ItemOutcome) (fs0 : FS)
    (reqs : List AssetRequest) :
    (runBatch (plainPlan ω) fs0 reqs).fs =
      (genLoopOk ω reqs.length 0 fs0 reqs).1 := by
  rw [runBatch_plainPlan]
  rfl

theorem runBatch_plainPlan_trace (ω : Nat → ItemOutcome) (fs0 : FS)
    (reqs : List AssetRequest) :
    (runBatch (plainPlan ω) fs0 reqs).trace =
      (genLoopOk ω reqs.length 0 fs0 reqs).2 ++
        summaryPass (genLoopOk ω reqs.length 0 fs0 reqs).1 reqs := by
  rw [runBatch_plainPlan]
  rfl

/-! ## Uncaught-fault lemmas -/

theorem genLoop_progressFault (ω : Nat → ItemOutcome) (n k : Nat) :
    ∀ (reqs : List AssetRequest) (i : Nat) (fs : FS),
      i ≤ k → k - i < reqs.length →
      (genLoop (progressFaultPlan ω k) n i fs reqs).isCompleted = false ∧
      serviceCalls (genLoop (progressFaultPlan ω k) n i fs reqs).trace =
        (reqs.take (k - i)).map mkServiceRequest := by
  intro reqs
  induction reqs with
  | nil => intro i fs _ h; exact absurd h (Nat.not_lt_zero _)
  | cons req rest ih =>
    intro i fs hik hlen
    by_cases hk : i = k
    · subst hk
      rw [genLoop]
      simp only [progressFaultPlan, beq_self_eq_true, if_true]
      exact ⟨rfl, by simp [RunResult.trace, serviceCalls]⟩
    · have hik' : i + 1 ≤ k := by omega
      have hlen' : k - (i + 1) < rest.length := by
        simp only [List.length_cons] at hlen
        omega
      obtain ⟨ihc, ihs⟩ := ih (i + 1) (itemStep (ω i) n i fs req).1 hik' hlen'
      have hplan : progressFaultPlan ω k i = ⟨false, ω i, false⟩ := by
        simp [progressFaultPlan, hk]
      rw [genLoop, hplan]
      simp only [Bool.false_eq_true, if_false]
      rw [itemStep_fs] at ihc ihs
      have htake : (req :: rest).take (k - i) =
          req :: rest.take (k - (i + 1)) := by
        have h1 : k - i = (k - (i + 1)) + 1 := by omega
        rw [h1, List.take_succ_cons]
      by_cases h : i < n - 1
      · rw [if_pos h]
        refine ⟨by rw [prepend_isCompleted]; exact ihc, ?_⟩
        rw [prepend_trace, serviceCalls_append, ihs, htake]
        rw [serviceCalls_append, serviceCalls_cons, serviceCalls_processItem]
        simp [serviceCalls]
      · rw [if_neg h]
        refine ⟨by rw [prepend_isCompleted]; exact ihc, ?_⟩
        rw [prepend_trace, serviceCalls_append, ihs, htake]
        rw [serviceCalls_cons, serviceCalls_processItem]
        simp

theorem genLoop_sleepFault (ω : Nat → ItemOutcome) (n k : Nat) (hkn : k < n - 1) :
    ∀ (reqs : List AssetRequest) (i : Nat) (fs : FS),
      i ≤ k → k - i < reqs.length →
      (genLoop (sleepFaultPlan ω k) n i fs reqs).isCompleted = false ∧
      serviceCalls (genLoop (sleepFaultPlan ω k) n i fs reqs).trace =
        (reqs.take (k - i + 1)).map mkServiceRequest := by
  intro reqs
  induction reqs with
  | nil => intro i fs _ h; exact absurd h (Nat.not_lt_zero _)
  | cons req rest ih =>
    intro i fs hik hlen
    by_cases hk : i = k
    · subst hk
      rw [genLoop]
      simp only [sleepFaultPlan, Bool.false_eq_true, if_false,
        beq_self_eq_true, if_true, hkn]
      refine ⟨rfl, ?_⟩
      show serviceCalls (Event.progress (i + 1) n req.filename req.aspect_ratio ::
        (processItem (ω i) fs req).2 ++ [Event.waiting]) =
        ((req :: rest).take (i - i + 1)).map mkServiceRequest
      rw [Nat.sub_self, List.take_succ_cons, List.take_zero]
      rw [serviceCalls_append, serviceCalls_cons, serviceCalls_processItem]
      simp [serviceCalls]
    · have hik' : i + 1 ≤ k := by omega
      have hlen' : k - (i + 1) < rest.length := by
        simp only [List.length_cons] at hlen
        omega
      obtain ⟨ihc, ihs⟩ := ih (i + 1) (itemStep (ω i) n i fs req).1 hik' hlen'
      have hplan : sleepFaultPlan ω k i = ⟨false, ω i, false⟩ := by
        simp [sleepFaultPlan, hk]
      rw [genLoop, hplan]
      simp only [Bool.false_eq_true, if_false]
      rw [itemStep_fs] at ihc ihs
      have hin : i < n - 1 := by omega
      rw [if_pos hin]
      refine ⟨by rw [prepend_isCompleted]; exact ihc, ?_⟩
      rw [prepend_trace, serviceCalls_append, ihs]
      have htake : (req :: rest).take (k - i + 1) =
          req :: rest.take (k - (i + 1) + 1) := by
        have h1 : k - i + 1 = (k - (i + 1) + 1) + 1 := by omega
        rw [h1, List.take_succ_cons]
      rw [htake]
      rw [serviceCalls_append, serviceCalls_cons, serviceCalls_processItem]
      simp [serviceCalls]

/-! ## Directory-preparation lemmas -/

theorem foldl_addDir_mem (l : List (List String)) :
    ∀ (d : List (List String)) (x : List String), x ∈ d →
      x ∈ l.foldl (fun d p => if p ∈ d then d else d ++ [p]) d := by
  induction l with
  | nil => intro d x h; exact h
  | cons p rest ih =>
    intro d x h
    rw [List.foldl_cons]
    apply ih
    by_cases hp : p ∈ d
    · rwa [if_pos hp]
    · rw [if_neg hp]
      exact List.mem_append_left _ h

theorem foldl_addDir_adds (l : List (List String)) :
    ∀ (d : List (List String)) (x : List String), x ∈ l →
      x ∈ l.foldl (fun d p => if p ∈ d then d else d ++ [p]) d := by
  induction l with
  | nil => intro d x h; exact absurd h (List.not_mem_nil x)
  | cons p rest ih =>
    intro d x h
    rw [List.foldl_cons]
    rcases List.mem_cons.mp h with rfl | h
    · apply foldl_addDir_mem
      by_cases hp : x ∈ d
      · rwa [if_pos hp]
      · rw [if_neg hp]
        exact List.mem_append_right _ (by simp)
    · exact ih _ x h

theorem foldl_addDir_id (l : List (List String)) :
    ∀ (d : List (List String)), (∀ p ∈ l, p ∈ d) →
      l.foldl (fun d p => if p ∈ d then d else d ++ [p]) d = d := by
  induction l with
  | nil => intro d _; rfl
  | cons p rest ih =>
    intro d h
    rw [List.foldl_cons, if_pos (h p (List.mem_cons_self _ _))]
    exact ih d (fun q hq => h q (List.mem_cons_of_mem _ hq))

/-! ## Aborted-run shape -/

theorem runBatch_aborted (plan : Nat → ItemPlan) (fs0 : FS)
    (reqs : List AssetRequest)
    (h : (genLoop plan reqs.length 0 fs0 reqs).isCompleted = false) :
    runBatch plan fs0 reqs = genLoop plan reqs.length 0 fs0 reqs := by
  unfold runBatch
  cases hg : genLoop plan reqs.length 0 fs0 reqs with
  | completed fs t =>
    rw [hg] at h
    exact absurd h (by simp [RunResult.isCompleted])
  | aborted fs t => rfl

/-! ## Claim theorems -/

/-- C1: for every item in the fixed asset list, one run of the batch
invokes the generation service exactly once per item, in list order
(the trace's `replicate.run` calls are exactly `images.map
mkServiceRequest`), and a failure of any earlier item — any environment
`ω` — does not change whether or in what order later items are
invoked. -/
theorem spec_C1 (ω : Nat → ItemOutcome) (fs0 : FS) :
    (runBatch (plainPlan ω) fs0 images).isCompleted = true ∧
    serviceCalls (runBatch (plainPlan ω) fs0 images).trace =
      images.map mkServiceRequest ∧
    ∀ (ω2 : Nat → ItemOutcome),
      serviceCalls (runBatch (plainPlan ω) fs0 images).trace =
        serviceCalls (runBatch (plainPlan ω2) fs0 images).trace := by
  have key : ∀ (ω3 : Nat → ItemOutcome),
      serviceCalls (runBatch (plainPlan ω3) fs0 images).trace =
        images.map mkServiceRequest := by
    intro ω3
    rw [runBatch_plainPlan_trace, serviceCalls_append, serviceCalls_genLoopOk,
      serviceCalls_summaryPass, List.append_nil]
  exact ⟨runBatch_plainPlan_isCompleted ω fs0 images, key ω,
    fun ω2 => (key ω).trans (key ω2).symm⟩

/-- C2: for a list of `n` items the 65-second pacing delay executes
exactly `n - 1` times in one run, never when `n ≤ 1`, and — per
iteration, whatever the item's outcome — a sleep occurs in the
iteration's events exactly when the item is not the last
(`i < n - 1`). -/
theorem spec_C2 (ω : Nat → ItemOutcome) (fs0 : FS) (reqs : List AssetRequest) :
    sleepCount (runBatch (plainPlan ω) fs0 reqs).trace = reqs.length - 1 ∧
    (reqs.length ≤ 1 → sleepCount (runBatch (plainPlan ω) fs0 reqs).trace = 0) ∧
    (∀ (out : ItemOutcome) (n i : Nat) (fs : FS) (req : AssetRequest),
      Event.sleep 65 ∈ (itemStep out n i fs req).2 ↔ i < n - 1) := by
  have h1 : sleepCount (runBatch (plainPlan ω) fs0 reqs).trace =
      reqs.length - 1 := by
    rw [runBatch_plainPlan_trace, sleepCount_append,
      sleepCount_genLoopOk ω reqs.length reqs 0 fs0 (Nat.zero_add _),
      sleepCount_summaryPass]
    omega
  exact ⟨h1, fun hle => by rw [h1]; omega,
    fun out n i fs req => sleep_mem_itemStep out n i fs req⟩

/-- Witness for C2 at the empty list: zero sleeps when `n ≤ 1`. -/
theorem spec_C2_witness :
    sleepCount (runBatch (plainPlan (allOk fun _ => 0)) [] []).trace = 0 :=
  (spec_C2 (allOk fun _ => 0) [] []).2.1 (by decide)

/-- C3: every failing item-level outcome (service error, download
error, read-back error, success-print error) yields a `FAIL` notice
carrying the filename and the error's description; no file present
before the item is removed by it (no cleanup), a truncated download
leftover stays on disk, and for every environment the run completes
with the service still invoked once per item — no retry, no abort. -/
theorem spec_C3 :
    (∀ (out : ItemOutcome) (fs : FS) (req : AssetRequest) (msg : String),
      failMsg out = some msg →
      Event.fail req.filename msg ∈ (processItem out fs req).2) ∧
    (∀ (out : ItemOutcome) (fs : FS) (req : AssetRequest) (name : String),
      (getFile fs name).isSome = true →
      (getFile (processItem out fs req).1 name).isSome = true) ∧
    (∀ (fs : FS) (req : AssetRequest) (msg : String) (b : Nat),
      getFile (processItem (.downloadFail msg (some b)) fs req).1
        (joinPath ASSETS req.filename) = some b) ∧
    (∀ (ω : Nat → ItemOutcome) (fs0 : FS) (reqs : List AssetRequest),
      (runBatch (plainPlan ω) fs0 reqs).isCompleted = true ∧
      serviceCalls (runBatch (plainPlan ω) fs0 reqs).trace =
        reqs.map mkServiceRequest) := by
  refine ⟨processItem_fail_mem, getFile_processItem_isSome, ?_, ?_⟩
  · intro fs req msg b
    rw [getFile_processItem, if_pos rfl]
    rfl
  · intro ω fs0 reqs
    refine ⟨runBatch_plainPlan_isCompleted ω fs0 reqs, ?_⟩
    rw [runBatch_plainPlan_trace, serviceCalls_append, serviceCalls_genLoopOk,
      serviceCalls_summaryPass, List.append_nil]

/-- Witness for C3: a concrete service failure emits the `FAIL` line
with the filename and the message. -/
theorem spec_C3_witness :
    Event.fail "hero-bg.png" "boom" ∈
      (processItem (ItemOutcome.genFail "boom") []
        ⟨"hero-bg.png", "16:9", "p"⟩).2 :=
  spec_C3.1 (ItemOutcome.genFail "boom") [] ⟨"hero-bg.png", "16:9", "p"⟩ "boom" rfl

/-- C4: if the service call and the download succeed for every item,
then after the run every filename of the list is present on disk under
the output directory (with its downloaded size), the summary pass
reports each of them with its size, and no `MISSING` line is ever
emitted. -/
theorem spec_C4 (bytes : Nat → Nat) (fs0 : FS) :
    (runBatch (plainPlan (allOk bytes)) fs0 images).isCompleted = true ∧
    (∀ (j : Nat) (hj : j < images.length),
      getFile (runBatch (plainPlan (allOk bytes)) fs0 images).fs
        (joinPath ASSETS (images.get ⟨j, hj⟩).filename) = some (bytes j)) ∧
    (∀ (j : Nat) (hj : j < images.length),
      Event.summaryOk (images.get ⟨j, hj⟩).filename (bytes j / 1024) ∈
        (runBatch (plainPlan (allOk bytes)) fs0 images).trace) ∧
    (∀ name : String,
      Event.summaryMissing name ∉
        (runBatch (plainPlan (allOk bytes)) fs0 images).trace) := by
  have hnd : (images.map (fun r => joinPath ASSETS r.filename)).Nodup := by
    decide
  have hfile : ∀ (j : Nat) (hj : j < images.length),
      getFile (genLoopOk (allOk bytes) images.length 0 fs0 images).1
        (joinPath ASSETS (images.get ⟨j, hj⟩).filename) = some (bytes j) := by
    intro j hj
    rw [getFile_genLoopOk_final (allOk bytes) images.length images hnd 0 fs0 j hj]
    simp [allOk, writes]
  have hpresent : ∀ r ∈ images,
      (getFile (genLoopOk (allOk bytes) images.length 0 fs0 images).1
        (joinPath ASSETS r.filename)).isSome = true := by
    intro r hr
    obtain ⟨⟨j, hj⟩, hg⟩ := List.mem_iff_get.mp hr
    rw [← hg, hfile j hj]
    rfl
  refine ⟨runBatch_plainPlan_isCompleted _ fs0 images, ?_, ?_, ?_⟩
  · intro j hj
    rw [runBatch_plainPlan_fs]
    exact hfile j hj
  · intro j hj
    rw [runBatch_plainPlan_trace]
    refine List.mem_append_right _ ?_
    exact summaryOk_mem _ images _ (images.get_mem _ _) (bytes j) (hfile j hj)
  · intro name hm
    rw [runBatch_plainPlan_trace, List.mem_append] at hm
    rcases hm with hm | hm
    · have := inLoop_genLoopOk (allOk bytes) images.length images 0 fs0 _ hm
      exact Bool.noConfusion this
    · exact summaryMissing_not_mem _ images hpresent name hm

/-- Witness for C4: with a 2048-byte always-success download into an
empty filesystem, the first asset's file is on disk with its size. -/
theorem spec_C4_witness :
    getFile (runBatch (plainPlan (allOk fun _ => 2048)) [] images).fs
      (joinPath ASSETS (images.get ⟨0, by decide⟩).filename) = some 2048 :=
  (spec_C4 (fun _ => 2048) []).2.1 0 (by decide)

/-- C5: if the service call fails for exactly item `k` and succeeds for
all others, the run completes having invoked the service once per item,
emits a `FAIL` notice for item `k`'s filename, leaves item `k`'s file
exactly as it was before the run (absent, or a leftover from a prior
run), and creates the file of every other item. -/
theorem spec_C5 (k : Nat) (msg : String) (bytes : Nat → Nat) (fs0 : FS)
    (hk : k < images.length) :
    (runBatch (plainPlan (failOnly k msg bytes)) fs0 images).isCompleted = true ∧
    serviceCalls (runBatch (plainPlan (failOnly k msg bytes)) fs0 images).trace =
      images.map mkServiceRequest ∧
    Event.fail ((images.get ⟨k, hk⟩).filename) msg ∈
      (runBatch (plainPlan (failOnly k msg bytes)) fs0 images).trace ∧
    getFile (runBatch (plainPlan (failOnly k msg bytes)) fs0 images).fs
        (joinPath ASSETS (images.get ⟨k, hk⟩).filename) =
      getFile fs0 (joinPath ASSETS (images.get ⟨k, hk⟩).filename) ∧
    (∀ (j : Nat) (hj : j < images.length), j ≠ k →
      getFile (runBatch (plainPlan (failOnly k msg bytes)) fs0 images).fs
        (joinPath ASSETS (images.get ⟨j, hj⟩).filename) = some (bytes j)) := by
  have hnd : (images.map (fun r => joinPath ASSETS r.filename)).Nodup := by
    decide
  refine ⟨runBatch_plainPlan_isCompleted _ fs0 images, ?_, ?_, ?_, ?_⟩
  · rw [runBatch_plainPlan_trace, serviceCalls_append, serviceCalls_genLoopOk,
      serviceCalls_summaryPass, List.append_nil]
  · rw [runBatch_plainPlan_trace]
    refine List.mem_append_left _ ?_
    exact fail_mem_genLoopOk (failOnly k msg bytes) images.length images 0 fs0
      k hk msg (by simp [failOnly, failMsg])
  · rw [runBatch_plainPlan_fs]
    rw [getFile_genLoopOk_final (failOnly k msg bytes) images.length images
      hnd 0 fs0 k hk]
    simp [failOnly, writes]
  · intro j hj hjk
    rw [runBatch_plainPlan_fs]
    rw [getFile_genLoopOk_final (failOnly k msg bytes) images.length images
      hnd 0 fs0 j hj]
    simp [failOnly, writes, hjk]

/-- Witness for C5 at `k = 3`: item 3's file is untouched while, for
example, item 0's file is created. -/
theorem spec_C5_witness :
    getFile (runBatch (plainPlan (failOnly 3 "err" fun _ => 4096)) [] images).fs
        (joinPath ASSETS (images.get ⟨3, by decide⟩).filename) =
      getFile [] (joinPath ASSETS (images.get ⟨3, by decide⟩).filename) :=
  (spec_C5 3 "err" (fun _ => 4096) [] (by decide)).2.2.2.1

/-- C6: after the loop, whatever the per-item outcomes, the run's trace
ends with the summary pass over the same list in the same order — one
line per entry, `OK` with the size in KiB (integer-truncated, `b /
1024`) when the file exists and `MISSING` otherwise — followed by the
terminal `DONE` marker; the summary leaves the filesystem exactly as
the loop left it and emits no service call, no sleep and no progress
line. -/
theorem spec_C6 (ω : Nat → ItemOutcome) (fs0 : FS) (reqs : List AssetRequest) :
    (runBatch (plainPlan ω) fs0 reqs).trace =
      (genLoopOk ω reqs.length 0 fs0 reqs).2 ++
        (Event.summaryHeader ::
          reqs.map (summaryLine (genLoopOk ω reqs.length 0 fs0 reqs).1) ++
          [Event.done]) ∧
    (runBatch (plainPlan ω) fs0 reqs).fs =
      (genLoopOk ω reqs.length 0 fs0 reqs).1 ∧
    (∀ (fs : FS) (req : AssetRequest) (b : Nat),
      getFile fs (joinPath ASSETS req.filename) = some b →
      summaryLine fs req = Event.summaryOk req.filename (b / 1024)) ∧
    (∀ (fs : FS) (req : AssetRequest),
      getFile fs (joinPath ASSETS req.filename) = none →
      summaryLine fs req = Event.summaryMissing req.filename) ∧
    (∀ (fs : FS) (rs : List AssetRequest),
      serviceCalls (summaryPass fs rs) = [] ∧
      sleepCount (summaryPass fs rs) = 0 ∧
      progressCount (summaryPass fs rs) = 0) := by
  refine ⟨runBatch_plainPlan_trace ω fs0 reqs, runBatch_plainPlan_fs ω fs0 reqs,
    summaryLine_ok, summaryLine_missing, ?_⟩
  intro fs rs
  exact ⟨serviceCalls_summaryPass fs rs, sleepCount_summaryPass fs rs,
    progressCount_summaryPass fs rs⟩

/-- Witness for C6: a concrete present file yields the `OK` summary
line with its size in KiB. -/
theorem spec_C6_witness :
    summaryLine [(joinPath ASSETS "hero-bg.png", 2048)]
        ⟨"hero-bg.png", "16:9", "p"⟩ =
      Event.summaryOk "hero-bg.png" 2 :=
  (spec_C6 (allOk fun _ => 0) [] []).2.2.1
    [(joinPath ASSETS "hero-bg.png", 2048)] ⟨"hero-bg.png", "16:9", "p"⟩ 2048
    (by simp [getFile])

/-- C7: running the batch twice with an always-succeeding service
leaves exactly one on-disk file per asset name — the filesystem keys
stay duplicate-free and each asset's path occurs exactly once — and
each file holds the second run's download, i.e. the second run
overwrote the first run's file in place. -/
theorem spec_C7 (b1 b2 : Nat → Nat) (fs0 : FS) (hkeys : (fsKeys fs0).Nodup) :
    (fsKeys (runBatch (plainPlan (allOk b2))
        (runBatch (plainPlan (allOk b1)) fs0 images).fs images).fs).Nodup ∧
    (∀ (j : Nat) (hj : j < images.length),
      getFile (runBatch (plainPlan (allOk b2))
          (runBatch (plainPlan (allOk b1)) fs0 images).fs images).fs
          (joinPath ASSETS (images.get ⟨j, hj⟩).filename) = some (b2 j) ∧
      (fsKeys (runBatch (plainPlan (allOk b2))
          (runBatch (plainPlan (allOk b1)) fs0 images).fs images).fs).count
          (joinPath ASSETS (images.get ⟨j, hj⟩).filename) = 1) := by
  have hnd : (images.map (fun r => joinPath ASSETS r.filename)).Nodup := by
    decide
  have hkeys2 : (fsKeys (runBatch (plainPlan (allOk b2))
      (runBatch (plainPlan (allOk b1)) fs0 images).fs images).fs).Nodup := by
    rw [runBatch_plainPlan_fs, runBatch_plainPlan_fs]
    exact fsKeys_genLoopOk_nodup (allOk b2) images.length images 0 _
      (fsKeys_genLoopOk_nodup (allOk b1) images.length images 0 fs0 hkeys)
  have hget : ∀ (j : Nat) (hj : j < images.length),
      getFile (runBatch (plainPlan (allOk b2))
          (runBatch (plainPlan (allOk b1)) fs0 images).fs images).fs
          (joinPath ASSETS (images.get ⟨j, hj⟩).filename) = some (b2 j) := by
    intro j hj
    rw [runBatch_plainPlan_fs]
    rw [getFile_genLoopOk_final (allOk b2) images.length images hnd 0 _ j hj]
    simp [allOk, writes]
  refine ⟨hkeys2, fun j hj => ⟨hget j hj, ?_⟩⟩
  have hmem : joinPath ASSETS (images.get ⟨j, hj⟩).filename ∈
      fsKeys (runBatch (plainPlan (allOk b2))
        (runBatch (plainPlan (allOk b1)) fs0 images).fs images).fs := by
    rw [← getFile_isSome_iff_mem, hget j hj]
    rfl
  exact List.count_eq_one_of_mem hkeys2 hmem

/-- Witness for C7 from an empty filesystem: after two runs the first
asset's file holds the second run's bytes. -/
theorem spec_C7_witness :
    getFile (runBatch (plainPlan (allOk fun _ => 2))
        (runBatch (plainPlan (allOk fun _ => 1)) [] images).fs images).fs
      (joinPath ASSETS (images.get ⟨0, by decide⟩).filename) = some 2 :=
  ((spec_C7 (fun _ => 1) (fun _ => 2) [] (by decide)).2 0 (by decide)).1

/-- C8: output-directory preparation (modelled from the spec, since
`os.makedirs` is library code outside this repository) never errors
absent a permission/path failure — in particular not when the directory
already exists — creates the directory and every intermediate
directory, and running it again on the resulting state succeeds and
changes nothing; a permission/path failure, by contrast, aborts the
whole run before any item is processed. -/
theorem spec_C8 :
    (∀ (dirs : List (List String)) (path : List String),
      ∃ d', makedirs false dirs path = Except.ok d' ∧
        (∀ k, k < path.length → path.take (k + 1) ∈ d') ∧
        makedirs false d' path = Except.ok d') ∧
    (∀ (dirs : List (List String)) (plan : Nat → ItemPlan) (fs0 : FS),
      runProgram true dirs plan fs0 = Except.error "PermissionError") := by
  constructor
  · intro dirs path
    refine ⟨(initSegs path).foldl (fun d p => if p ∈ d then d else d ++ [p]) dirs,
      rfl, ?_, ?_⟩
    · intro k hk
      apply foldl_addDir_adds
      unfold initSegs
      exact List.mem_map.mpr ⟨k, List.mem_range.mpr hk, rfl⟩
    · unfold makedirs
      rw [if_neg (by simp)]
      rw [foldl_addDir_id _ _ (fun p hp => foldl_addDir_adds _ _ p hp)]
  · intro dirs plan fs0
    rfl

/-- Witness for C8: preparing `a/b` from nothing creates the
intermediate directory `a`. -/
theorem spec_C8_witness :
    ["a"] ∈ ((initSegs ["a", "b"]).foldl
      (fun d p => if p ∈ d then d else d ++ [p]) ([] : List (List String))) := by
  obtain ⟨d', hok, hmem, _⟩ := spec_C8.1 [] ["a", "b"]
  have hd : d' = (initSegs ["a", "b"]).foldl
      (fun d p => if p ∈ d then d else d ++ [p]) [] := by
    simpa [makedirs] using hok.symm
  rw [← hd]
  exact hmem 0 (by decide)

/-- C9: the hardcoded asset list satisfies the data-model invariants —
every filename is unique in the list and every aspect ratio is one of
`16:9`, `1:1`, `9:16`.  (The list is a constant of the embedding, as in
the script, where it is bound once and never reassigned or mutated; the
loop and the summary pass only read it.) -/
theorem spec_C9 :
    (images.map (fun r => r.filename)).Nodup ∧
    images.all (fun r => r.aspect_ratio == "16:9" || r.aspect_ratio == "1:1" ||
      r.aspect_ratio == "9:16") = true := by
  constructor
  · decide
  · rfl

/-- C10: the per-item `try` covers exactly the service call, the
download, the size read-back and the success notice — any of those
failing still lets the whole run complete — while a failure in the
progress print (before the `try`) aborts the run with item `k` and all
later items never invoked, and a failure in the pacing print/sleep
(after the `try`, executed only for non-last items) aborts the run with
item `k` invoked but no later item. -/
theorem spec_C10 :
    (∀ (ω : Nat → ItemOutcome) (fs0 : FS) (reqs : List AssetRequest),
      (runBatch (plainPlan ω) fs0 reqs).isCompleted = true) ∧
    (∀ (ω : Nat → ItemOutcome) (fs0 : FS) (reqs : List AssetRequest) (k : Nat),
      k < reqs.length →
      (runBatch (progressFaultPlan ω k) fs0 reqs).isCompleted = false ∧
      serviceCalls (runBatch (progressFaultPlan ω k) fs0 reqs).trace =
        (reqs.take k).map mkServiceRequest) ∧
    (∀ (ω : Nat → ItemOutcome) (fs0 : FS) (reqs : List AssetRequest) (k : Nat),
      k < reqs.length - 1 →
      (runBatch (sleepFaultPlan ω k) fs0 reqs).isCompleted = false ∧
      serviceCalls (runBatch (sleepFaultPlan ω k) fs0 reqs).trace =
        (reqs.take (k + 1)).map mkServiceRequest) := by
  refine ⟨fun ω fs0 reqs => runBatch_plainPlan_isCompleted ω fs0 reqs, ?_, ?_⟩
  · intro ω fs0 reqs k hk
    obtain ⟨hc, hs⟩ := genLoop_progressFault ω reqs.length k reqs 0 fs0
      (Nat.zero_le k) (by simpa using hk)
    rw [Nat.sub_zero] at hs
    rw [runBatch_aborted _ fs0 reqs hc]
    exact ⟨hc, hs⟩
  · intro ω fs0 reqs k hk
    obtain ⟨hc, hs⟩ := genLoop_sleepFault ω reqs.length k hk reqs 0 fs0
      (Nat.zero_le k) (by omega)
    rw [Nat.sub_zero] at hs
    rw [runBatch_aborted _ fs0 reqs hc]
    exact ⟨hc, hs⟩

/-- Witness for C10: a progress-print failure at item 2 aborts the run
with only items 0 and 1 having reached the service. -/
theorem spec_C10_witness :
    (runBatch (progressFaultPlan (allOk fun _ => 1024) 2) [] images).isCompleted
      = false ∧
    serviceCalls (runBatch (progressFaultPlan (allOk fun _ => 1024) 2)
        [] images).trace = (images.take 2).map mkServiceRequest :=
  spec_C10.2.1 (allOk fun _ => 1024) [] images 2 (by decide)
